import Mathlib

/-!
Shallow embedding of the `intrack` issue tracker (Rust) for specification
checking.  The domain store lives in `src/feat/issues/mod.rs`, the issue data
model in `src/feat/issue/`, the TUI input routing in `src/app.rs`,
`src/feat/tui_issue_table/input.rs`, `src/feat/tui_issue_thread/input.rs` and
`src/feat/tui_widget/input_box.rs`, and the pending external-editor slot in
`src/feat/external_editor/mod.rs`.

Modelling conventions:
- `u64`/`usize` are modelled as `Nat` (no operation in the modelled code
  exercises wrap-around), `jiff::Timestamp` as `Int`.
- `HashMap` is modelled as an association list; `insert` replaces the value in
  place, `entry(..).and_modify(..)` edits in place leaving an absent key
  untouched.
- File I/O is modelled explicitly: the contents of the event-log file are a
  `String`, and each fallible step of `append_to_log` is driven by an oracle
  saying whether that step succeeds.
- `serde_json` serialization/deserialization of one event is a parameter pair
  `enc : IssueEvent → String` / `dec : String → Option IssueEvent`.
- Closures handed to the external editor are modelled as first-order tags
  (one per closure in the source), as the editor machinery never runs them.
-/

namespace Intrack

/-! ## Issue data model (`src/feat/issue/`) -/

/-- `pub type IssueId = u64;` -/
abbrev IssueId := Nat

/-- Timestamps (`jiff::Timestamp`) modelled as integers. -/
abbrev Timestamp := Int

/-- `Status` from `src/feat/issue/status.rs`. -/
inductive Status
  | Open
  | Closed
deriving DecidableEq

/-- Modelled from the spec: `Status::invert` is called by the issue-table
input handler (`input.rs` line 171) but its definition is missing from this
snapshot of `src`; with two variants, "toggle status" is the swap. -/
def Status.invert : Status → Status
  | .Open => .Closed
  | .Closed => .Open

/-- `Priority` from `src/feat/issue/priority.rs` (ordered as declared). -/
inductive Priority
  | Trivial
  | Low
  | Medium
  | High
  | Critical
  | Blocker
deriving DecidableEq

/-- `Issue` from `src/feat/issue/mod.rs`; the `custom` `HashMap<String,String>`
is modelled as an association list. -/
structure Issue where
  id : IssueId
  title : String
  created : Timestamp
  status : Status
  priority : Priority
  created_by : String
  custom : List (String × String)
deriving DecidableEq

/-- `Comment` from `src/feat/issue/comment.rs`. -/
structure Comment where
  parent_issue : IssueId
  content : String
  created : Timestamp
  created_by : String
deriving DecidableEq

/-- `IssueEvent` from `src/feat/issues/event.rs`. -/
inductive IssueEvent
  | IssueCreated (issue : Issue)
  | CommentAdded (comment : Comment)
  | StatusChanged (issue_id : IssueId) (status : Status)
  | PriorityChanged (issue_id : IssueId) (priority : Priority)
deriving DecidableEq

/-! ## HashMap model

`HashMap<IssueId, α>` is an association list without a fixed iteration
order in Rust; the list order in the model is immaterial for the properties
proved below, which observe maps through `hmLookup`. -/

/-- `HashMap::insert`: replace the binding in place if the key is present,
otherwise add it. -/
def hmInsert {α : Type} (k : IssueId) (v : α) : List (IssueId × α) → List (IssueId × α)
  | [] => [(k, v)]
  | (k', v') :: rest => if k' = k then (k, v) :: rest else (k', v') :: hmInsert k v rest

/-- `HashMap::get`. -/
def hmLookup {α : Type} (k : IssueId) : List (IssueId × α) → Option α
  | [] => none
  | (k', v) :: rest => if k' = k then some v else hmLookup k rest

/-- `HashMap::entry(k).and_modify(f)`: edit the value in place when the key is
present, leave the map untouched otherwise. -/
def hmModify {α : Type} (k : IssueId) (f : α → α) : List (IssueId × α) → List (IssueId × α)
  | [] => []
  | (k', v) :: rest => if k' = k then (k', f v) :: rest else (k', v) :: hmModify k f rest

/-- `HashMap::entry(k).or_default().push(c)` on a `HashMap<IssueId, Vec<Comment>>`:
append `c` at the end of the existing vector, creating a fresh singleton vector
when the key is absent. -/
def hmPushComment (k : IssueId) (c : Comment) :
    List (IssueId × List Comment) → List (IssueId × List Comment)
  | [] => [(k, [c])]
  | (k', cs) :: rest =>
    if k' = k then (k', cs ++ [c]) :: rest else (k', cs) :: hmPushComment k c rest

/-! ## The projection (`Issues` in `src/feat/issues/mod.rs`) -/

/-- The projected state: `issues: HashMap<IssueId, Issue>` and
`comments: HashMap<IssueId, Vec<Comment>>`. -/
structure Issues where
  issues : List (IssueId × Issue)
  comments : List (IssueId × List Comment)
deriving DecidableEq

/-- `Issues::default()`: both maps empty. -/
def Issues.empty : Issues := { issues := [], comments := [] }

/-- `Issues::apply_event` (`src/feat/issues/mod.rs` lines 49-71). -/
def Issues.apply_event (s : Issues) (event : IssueEvent) : Issues :=
  match event with
  | .IssueCreated item => { s with issues := hmInsert item.id item s.issues }
  | .CommentAdded comment =>
    { s with comments := hmPushComment comment.parent_issue comment s.comments }
  | .StatusChanged issue_id status =>
    { s with issues := hmModify issue_id (fun issue => { issue with status := status }) s.issues }
  | .PriorityChanged issue_id priority =>
    { s with issues := hmModify issue_id (fun issue => { issue with priority := priority }) s.issues }

/-- `Issues::next_issue_id`:
`self.issues.keys().map(|&id| id + 1).max().unwrap_or(1)`. -/
def Issues.next_issue_id (s : Issues) : IssueId :=
  ((s.issues.map (fun p => p.1 + 1)).max?).getD 1

/-- `Issues::from_events`: fold `apply_event` over the events starting from
the default (empty) state. -/
def Issues.from_events (events : List IssueEvent) : Issues :=
  events.foldl Issues.apply_event Issues.empty

/-- Modelled from the spec: `Issues::get_issue` is called by the input
handlers but missing from this snapshot of `src`; the projection is a
`map<id, Issue>`, so this is the map lookup. -/
def Issues.get_issue (s : Issues) (id : IssueId) : Option Issue :=
  hmLookup id s.issues

/-! ## Loading (`Issues::from_jsonl_file`, lines 97-120)

Rust's `str::lines()` splits at `\n`, treats a final line ending as optional,
and strips one `\r` from the end of a line only when that line was terminated
by `\n` (so a `\r\n` ending loses both characters while an unterminated final
`\r` stays). -/

/-- Segments of a character list split at every newline character
(`str::split('\n')` semantics: always at least one segment). -/
def lineSegments : List Char → List (List Char)
  | [] => [[]]
  | c :: rest =>
    match lineSegments rest with
    | [] => [[]]
    | l :: ls => if c = '\n' then [] :: l :: ls else (c :: l) :: ls

/-- Drop one trailing carriage return, if any. -/
def stripCr (l : List Char) : List Char :=
  if l.getLast? = some '\r' then l.dropLast else l

/-- Turn raw newline segments into Rust `lines()` output: every segment but
the last was `\n`-terminated and loses a trailing `\r`; the last segment is
dropped when empty (optional final terminator) and kept verbatim otherwise. -/
def finishLines : List (List Char) → List (List Char)
  | [] => []
  | [l] => if l = [] then [] else [l]
  | l :: ls => stripCr l :: finishLines ls

/-- Rust `str::lines()` over a whole file content. -/
def rustLines (s : String) : List String :=
  (finishLines (lineSegments s.data)).map fun l => String.mk l

/-- Leading and trailing whitespace removed from a character list. -/
def trimChars (l : List Char) : List Char :=
  ((l.dropWhile Char.isWhitespace).reverse.dropWhile Char.isWhitespace).reverse

/-- Rust `str::trim` (whitespace at both ends removed; the model uses the
ASCII whitespace set, which covers everything the log format produces). -/
def rustTrim (s : String) : String :=
  String.mk (trimChars s.data)

/-- The load error: `IssuesEventError` with its attachments
`failed to deserialize event at line {idx + 1}` and `content: {line}`.
`line` is the 1-based line number and `content` the reported line text. -/
structure LoadError where
  line : Nat
  content : String
deriving DecidableEq

/-- The decode loop of `from_jsonl_file`: enumerate lines from `idx`, trim
each, skip empties, decode the rest in order; a decode failure aborts with the
1-based line number and the trimmed line content (the code formats the
shadowed `line` binding, which holds the trimmed text). -/
def decodeLinesFrom (dec : String → Option IssueEvent) :
    Nat → List String → Except LoadError (List IssueEvent)
  | _, [] => .ok []
  | idx, line :: rest =>
    let t := rustTrim line
    if t.data = [] then decodeLinesFrom dec (idx + 1) rest
    else
      match dec t with
      | none => .error { line := idx + 1, content := t }
      | some event => (decodeLinesFrom dec (idx + 1) rest).map (fun evs => event :: evs)

/-- `Issues::from_jsonl_file` on the list of lines of the file. -/
def Issues.from_jsonl_lines (dec : String → Option IssueEvent) (lines : List String) :
    Except LoadError Issues :=
  (decodeLinesFrom dec 0 lines).map Issues.from_events

/-- `Issues::from_jsonl_file`: read the file content, split into lines, decode
and fold.  The content `String` stands for the file on disk. -/
def Issues.from_jsonl_file (dec : String → Option IssueEvent) (content : String) :
    Except LoadError Issues :=
  Issues.from_jsonl_lines dec (rustLines content)

/-! ## Appending (`Issues::append_to_log`, lines 132-162) -/

/-- Success/failure of each fallible step of `append_to_log`, in program
order: opening the file in append+create mode, `serde_json::to_string`,
`write_all` of the JSON bytes, `write_all` of the newline. -/
structure AppendOracle where
  fileOpens : Bool
  serializes : Bool
  writesEvent : Bool
  writesNewline : Bool
deriving DecidableEq

/-- The oracle under which every I/O step succeeds. -/
def AppendOracle.allOk : AppendOracle :=
  { fileOpens := true, serializes := true, writesEvent := true, writesNewline := true }

/-- The four error exits of `append_to_log` (each an `IssuesEventError` with a
distinct attachment in the source). -/
inductive AppendError
  | openFailed
  | serializeFailed
  | writeEventFailed
  | writeNewlineFailed
deriving DecidableEq

/-- `Issues::append_to_log`.  Returns the `Result`, the projection (`&mut
self` after the call) and the file content after the call.  The event is
applied to the projection only on the all-success path, after both writes;
when only the newline write fails the JSON bytes are already in the file. -/
def Issues.append_to_log (enc : IssueEvent → String) (orc : AppendOracle)
    (s : Issues) (file : String) (event : IssueEvent) :
    Except AppendError Unit × Issues × String :=
  if orc.fileOpens = false then (.error .openFailed, s, file)
  else if orc.serializes = false then (.error .serializeFailed, s, file)
  else
    let event_json := enc event
    if orc.writesEvent = false then (.error .writeEventFailed, s, file)
    else if orc.writesNewline = false then (.error .writeNewlineFailed, s, file ++ event_json)
    else (.ok (), s.apply_event event, file ++ event_json ++ "\n")

/-- A log file holding exactly the given records, one serialized record per
line, each line terminated by a newline (the writer's format). -/
def logFile (enc : IssueEvent → String) : List IssueEvent → String
  | [] => ""
  | e :: rest => enc e ++ "\n" ++ logFile enc rest

/-! ## TUI events (`src/feat/tui/wrapper.rs`, `src/feat/tui/event.rs`)

`crossterm::event::KeyCode` has more variants than the handlers inspect; the
unused remainder is collapsed into `other`. -/

/-- Key codes: the variants the handlers match on, plus a catch-all for the
remaining `crossterm` codes. -/
inductive KeyCode
  | Char (c : Char)
  | Esc
  | Enter
  | Backspace
  | Left
  | Right
  | Up
  | Down
  | other (n : Nat)
deriving DecidableEq

/-- `crossterm::event::KeyModifiers` (bitflags); only the three common bits
are modelled, and the handlers test only `SHIFT` and `CONTROL`. -/
structure KeyModifiers where
  shift : Bool
  control : Bool
  alt : Bool
deriving DecidableEq

/-- `crossterm::event::KeyEventKind`. -/
inductive KeyEventKind
  | Press
  | Release
  | Repeat
deriving DecidableEq

/-- `crossterm::event::KeyEvent` (the three fields the wrapper reads). -/
structure KeyEvent where
  code : KeyCode
  modifiers : KeyModifiers
  kind : KeyEventKind
deriving DecidableEq

/-- `Event` from `src/feat/tui/wrapper.rs`; `MouseEvent` is opaque. -/
inductive Event
  | Init
  | Quit
  | Error
  | Closed
  | Tick
  | Render
  | FocusGained
  | FocusLost
  | Paste (s : String)
  | Key (k : KeyEvent)
  | Mouse (m : Nat)
  | Resize (w h : Nat)
deriving DecidableEq

/-- `EventExt::keypress`: the key code of a key-press event. -/
def Event.keypress : Event → Option KeyCode
  | .Key key => if key.kind = .Press then some key.code else none
  | _ => none

/-- `EventExt::modifiers`: the modifiers of a key-press event. -/
def Event.modifiers : Event → Option KeyModifiers
  | .Key key => if key.kind = .Press then some key.modifiers else none
  | _ => none

/-- `EventExt::is_code`. -/
def Event.is_code (e : Event) (code : KeyCode) : Bool :=
  match e with
  | .Key key => decide (key.kind = .Press) && decide (key.code = code)
  | _ => false

/-- `EventExt::is_char`. -/
def Event.is_char (e : Event) (ch : Char) : Bool :=
  e.is_code (.Char ch)

/-- The guard `mods.contains(KeyModifiers::SHIFT)` under the pattern
`Some(mods)`: false when no modifiers are available. -/
def modsShift : Option KeyModifiers → Bool
  | some m => m.shift
  | none => false

/-- The guard `mods.contains(KeyModifiers::CONTROL)` under the pattern
`Some(mods)`. -/
def modsControl : Option KeyModifiers → Bool
  | some m => m.control
  | none => false

/-! ## UI state (`src/feat/tui/mod.rs` and page states)

`src/feat/tui/mod.rs` in this snapshot declares `Page { IssueTable }` and
`Focus { IssueTable, IssueTableFilter }`, while the newer handler sources
(`tui_issue_table/input.rs`, `tui_issue_thread/`) also use `Page::IssueThread`
and `Focus::IssueThread`; the model takes the union. -/

/-- Coarse screen. -/
inductive Page
  | IssueTable
  | IssueThread
deriving DecidableEq

/-- Widget owning raw input. -/
inductive Focus
  | IssueTable
  | IssueTableFilter
  | IssueThread
deriving DecidableEq

/-- `EventPropagation` from `src/feat/tui/mod.rs`. -/
inductive EventPropagation
  | Stop
  | Continue
deriving DecidableEq

/-- `SortDirection` from `src/feat/tui_issue_table/mod.rs`. -/
inductive SortDirection
  | Ascending
  | Descending
deriving DecidableEq

/-- `Column` from `src/feat/tui_issue_table/mod.rs`. -/
inductive Column
  | Id
  | Title
  | Created
  | Status
  | Priority
  | CreatedBy
  | Custom (key : String)
deriving DecidableEq

/-- The `Display` implementation for `Column`. -/
def Column.display : Column → String
  | .Id => "ID"
  | .Title => "Title"
  | .Created => "Created"
  | .Status => "Status"
  | .Priority => "Priority"
  | .CreatedBy => "Created By"
  | .Custom key => key

/-- `IssueTableState::available_columns_for_editing`: the active columns in
order, then each missing known column (enum order, `Custom` excluded)
commented out with `# `, joined by newlines. -/
def availableColumnsForEditing (columns : List Column) : String :=
  let known : List Column :=
    [.Id, .Title, .Created, .Status, .Priority, .CreatedBy]
  let lines :=
    columns.map Column.display ++
      (known.filter (fun c => ¬ columns.contains c)).map (fun c => "# " ++ c.display)
  String.intercalate "\n" lines

/-- `Issue::new_template` from `src/feat/issue/mod.rs`, the seed text for a
new issue. -/
def issueNewTemplate : String :=
  "---\ntitle: ENTER ISSUE TITLE HERE\ncreated_by: YOUR.EMAIL@EXAMPLE.COM\n\n# Trivial | Low | Medium | High | Critical | Blocker\npriority: Low\n\ncustom:\n  # assigned_to: user\n\n---\n<no comment provided>\n"

/-- `InputBoxState` from `src/feat/tui_widget/input_box.rs`; the `ropey::Rope`
text buffer is modelled as a character list. -/
structure InputBoxState where
  text : List Char
  cursor : Nat
  is_focused : Bool
deriving DecidableEq

/-- `InputBoxState::handle_input` (lines 39-70): character insertion at the
cursor, backspace of the character before the cursor, bounded cursor
movement; everything else continues propagation. -/
def InputBoxState.handle_input (b : InputBoxState) (e : Event) :
    EventPropagation × InputBoxState :=
  match e.keypress with
  | some (.Char ch) =>
    (.Stop, { b with
      text := b.text.take b.cursor ++ [ch] ++ b.text.drop b.cursor,
      cursor := b.cursor + 1 })
  | some .Backspace =>
    if b.text.length > 0 then
      (.Stop, { b with
        text := b.text.take (b.cursor - 1) ++ b.text.drop b.cursor,
        cursor := b.cursor - 1 })
    else (.Stop, b)
  | some .Left => (.Stop, { b with cursor := b.cursor - 1 })
  | some .Right =>
    if b.cursor < b.text.length then (.Stop, { b with cursor := b.cursor + 1 })
    else (.Stop, b)
  | _ => (.Continue, b)

/-- `InputBoxState::set_focused`. -/
def InputBoxState.set_focused (b : InputBoxState) (focused : Bool) : InputBoxState :=
  { b with is_focused := focused }

/-- `IssueTableState` from `src/feat/tui_issue_table/state.rs`;
`ratatui::TableState` is reduced to its `selected` index and the
`display_map: HashMap<usize, IssueId>` to an association list. -/
structure IssueTableState where
  table_selected : Option Nat
  filter_input : InputBoxState
  sort_by : Column
  sort_direction : SortDirection
  columns : List Column
  show_help : Bool
  display_map : List (Nat × IssueId)
deriving DecidableEq

/-- `IssueTableState::selected`: at most one selection. -/
def IssueTableState.selected (t : IssueTableState) : List Nat :=
  match t.table_selected with
  | some s => [s]
  | none => []

/-- Position of the current sort column inside `columns`
(`columns.iter().position(|c| *c == self.sort_by)`). -/
def listPosition (target : Column) : List Column → Option Nat
  | [] => none
  | c :: rest =>
    if c = target then some 0
    else (listPosition target rest).map (fun i => i + 1)

/-- `IssueTableState::sort_next_column`. -/
def IssueTableState.sort_next_column (t : IssueTableState) : IssueTableState :=
  match listPosition t.sort_by t.columns with
  | some i =>
    let next_i := (i + 1) % t.columns.length
    { t with sort_by := (t.columns.get? next_i).getD t.sort_by }
  | none => t

/-- `IssueTableState::sort_previous_column`. -/
def IssueTableState.sort_previous_column (t : IssueTableState) : IssueTableState :=
  match listPosition t.sort_by t.columns with
  | some i =>
    let prev_i := (i + t.columns.length - 1) % t.columns.length
    { t with sort_by := (t.columns.get? prev_i).getD t.sort_by }
  | none => t

/-- `IssueTableState::cursor_to_item`. -/
def IssueTableState.cursor_to_item (t : IssueTableState) (index : Nat) : IssueTableState :=
  { t with table_selected := some index }

/-- `IssueTableState::cursor_next` (saturating increment, select 0 when
nothing is selected). -/
def IssueTableState.cursor_next (t : IssueTableState) : IssueTableState :=
  match t.table_selected with
  | some current => t.cursor_to_item (current + 1)
  | none => t.cursor_to_item 0

/-- `IssueTableState::cursor_previous`. -/
def IssueTableState.cursor_previous (t : IssueTableState) : IssueTableState :=
  match t.table_selected with
  | some current => t.cursor_to_item (current - 1)
  | none => t.cursor_to_item 0

/-- `IssueTableState::set_sort_direction`. -/
def IssueTableState.set_sort_direction (t : IssueTableState) (d : SortDirection) :
    IssueTableState :=
  { t with sort_direction := d }

/-- `IssueThreadState` from `src/feat/tui_issue_thread/state.rs`;
`tui_widget_list::ListState` is reduced to its `selected` index. -/
structure IssueThreadState where
  list_selected : Option Nat
  issue_id : IssueId
  show_help : Bool
deriving DecidableEq

/-- `IssueThreadState::cursor_next`. -/
def IssueThreadState.cursor_next (t : IssueThreadState) : IssueThreadState :=
  { t with list_selected := some ((t.list_selected.getD 0) + 1) }

/-- `IssueThreadState::cursor_previous`. -/
def IssueThreadState.cursor_previous (t : IssueThreadState) : IssueThreadState :=
  { t with list_selected := some ((t.list_selected.getD 0) - 1) }

/-- `IssueThreadState::cursor_add`. -/
def IssueThreadState.cursor_add (t : IssueThreadState) (amount : Nat) : IssueThreadState :=
  { t with list_selected := some ((t.list_selected.getD 0) + amount) }

/-- `IssueThreadState::cursor_sub`. -/
def IssueThreadState.cursor_sub (t : IssueThreadState) (amount : Nat) : IssueThreadState :=
  { t with list_selected := some ((t.list_selected.getD 0) - amount) }

/-- `IssueThreadState::set_issue_id`: also resets the selection to 0. -/
def IssueThreadState.set_issue_id (t : IssueThreadState) (id : IssueId) : IssueThreadState :=
  { t with issue_id := id, list_selected := some 0 }

/-- `IssueThreadState::toggle_help`. -/
def IssueThreadState.toggle_help (t : IssueThreadState) : IssueThreadState :=
  { t with show_help := !t.show_help }

/-- `TuiState` from `src/feat/tui/state.rs` (with the thread-page state the
newer handler sources use). -/
structure TuiState where
  page : Page
  focus : Focus
  issue_table : IssueTableState
  issue_thread : IssueThreadState
deriving DecidableEq

/-! ## External editor slot (`src/feat/external_editor/mod.rs`) -/

/-- Tags standing for the three `FnOnce` closures the handlers create (the
slot machinery stores and returns them without ever invoking them). -/
inductive EditorCallback
  | editColumns
  | newIssue
  | addComment (issue_id : IssueId)
deriving DecidableEq

/-- `ExternalEditorEntry`. -/
structure ExternalEditorEntry where
  data : String
  file_extension : String
  callback : EditorCallback
deriving DecidableEq

/-- `ExternalEditor`: the at-most-one pending entry slot. -/
structure ExternalEditor where
  entry : Option ExternalEditorEntry
deriving DecidableEq

/-- `ExternalEditor::edit` (lines 39-58): build the new entry, take out
whatever was in the slot, store the new entry, and hand the displaced entry
(if any) back to the caller. -/
def ExternalEditor.edit (ed : ExternalEditor) (data file_extension : String)
    (cb : EditorCallback) : Option ExternalEditorEntry × ExternalEditor :=
  let entry : ExternalEditorEntry :=
    { data := data, file_extension := file_extension, callback := cb }
  let old_entry := ed.entry
  (old_entry, { entry := some entry })

/-- `ExternalEditor::take` (lines 61-63): empty the slot, returning its
content. -/
def ExternalEditor.take (ed : ExternalEditor) : Option ExternalEditorEntry × ExternalEditor :=
  (ed.entry, { entry := none })

/-! ## The application (`src/app.rs`) -/

/-- `App`: the projection, the UI state, the editor slot and the quit flag.
The `event_log` field models the contents of the on-disk log file at
`args.event_log` (the path itself plays no further role), so that the
handlers' `append_to_log` calls can be threaded through pure state. -/
structure App where
  issues : Issues
  event_log : String
  tuistate : TuiState
  external_editor : ExternalEditor
  should_quit : Bool
deriving DecidableEq

/-- Failures of the page input handlers: the `ok_or(IssueTablePageInputError)`
on a missing issue, a failed `append_to_log` (`change_context`), and the
panic Rust's `HashMap` indexing would raise on a missing `display_map` key. -/
inductive InputError
  | issueNotFound
  | appendFailed (e : AppendError)
  | displayMapIndexMissing
deriving DecidableEq

/-- The `for index in indices` loop of the `Char('s')` arm: look the index up
in `display_map` (Rust indexes, panicking on a miss), fetch the issue, build
`StatusChanged` with the inverted status and append it to the log, stopping at
the first failure. -/
def toggleStatusLoop (enc : IssueEvent → String) (orc : AppendOracle) :
    List Nat → App → Except InputError App
  | [], a => .ok a
  | index :: rest, a =>
    match hmLookup index a.tuistate.issue_table.display_map with
    | none => .error .displayMapIndexMissing
    | some target_id =>
      match a.issues.get_issue target_id with
      | none => .error .issueNotFound
      | some issue =>
        match Issues.append_to_log enc orc a.issues a.event_log
            (IssueEvent.StatusChanged issue.id issue.status.invert) with
        | (.error err, _, _) => .error (.appendFailed err)
        | (.ok _, issues', file') =>
          toggleStatusLoop enc orc rest { a with issues := issues', event_log := file' }

/-- `IssueTablePageInput::handle` for `App`
(`src/feat/tui_issue_table/input.rs` lines 73-251).  The `match` arms of the
source are rendered as an if-chain in source order; a guard
`if mods.contains(SHIFT)` that fails lets the key fall through to the later
arms exactly as in Rust. -/
def App.issue_table_handle (enc : IssueEvent → String) (orc : AppendOracle)
    (a : App) (e : Event) : Except InputError (EventPropagation × App) :=
  match a.tuistate.focus with
  | .IssueTable =>
    match e.keypress with
    | some key =>
      -- Edit columns
      if key = KeyCode.Char 'c' then
        let columns := availableColumnsForEditing a.tuistate.issue_table.columns
        let ed := (a.external_editor.edit columns "" .editColumns).2
        .ok (.Stop, { a with external_editor := ed })
      -- Create new issue
      else if key = KeyCode.Char 'n' then
        let ed := (a.external_editor.edit issueNewTemplate "" .newIssue).2
        .ok (.Stop, { a with external_editor := ed })
      -- Sort descending
      else if (key = .Down ∨ key = .Char 'J' ∨ key = .Char 'j') ∧ modsShift e.modifiers = true then
        .ok (.Stop, { a with tuistate := { a.tuistate with
          issue_table := a.tuistate.issue_table.set_sort_direction .Descending } })
      -- Sort ascending
      else if (key = .Up ∨ key = .Char 'K' ∨ key = .Char 'k') ∧ modsShift e.modifiers = true then
        .ok (.Stop, { a with tuistate := { a.tuistate with
          issue_table := a.tuistate.issue_table.set_sort_direction .Ascending } })
      -- Sort next column
      else if (key = .Right ∨ key = .Char 'L' ∨ key = .Char 'l') ∧ modsShift e.modifiers = true then
        .ok (.Stop, { a with tuistate := { a.tuistate with
          issue_table := a.tuistate.issue_table.sort_next_column } })
      -- Sort previous column
      else if (key = .Left ∨ key = .Char 'H' ∨ key = .Char 'h') ∧ modsShift e.modifiers = true then
        .ok (.Stop, { a with tuistate := { a.tuistate with
          issue_table := a.tuistate.issue_table.sort_previous_column } })
      -- Show help
      else if key = KeyCode.Char '?' then
        .ok (.Stop, { a with tuistate := { a.tuistate with
          issue_table := { a.tuistate.issue_table with
            show_help := !a.tuistate.issue_table.show_help } } })
      -- Toggle status line
      else if key = KeyCode.Char 's' then
        if a.tuistate.issue_table.selected = [] then .ok (.Stop, a)
        else
          match toggleStatusLoop enc orc a.tuistate.issue_table.selected a with
          | .error err => .error err
          | .ok a' => .ok (.Stop, a')
      -- Cursor to next item
      else if key = .Down ∨ key = .Char 'j' then
        .ok (.Stop, { a with tuistate := { a.tuistate with
          issue_table := a.tuistate.issue_table.cursor_next } })
      -- Cursor to previous item
      else if key = .Up ∨ key = .Char 'k' then
        .ok (.Stop, { a with tuistate := { a.tuistate with
          issue_table := a.tuistate.issue_table.cursor_previous } })
      -- View issue thread
      else if key = KeyCode.Enter then
        match (a.tuistate.issue_table.selected).head? with
        | some index =>
          match hmLookup index a.tuistate.issue_table.display_map with
          | none => .ok (.Stop, a)
          | some issue_id =>
            .ok (.Stop, { a with tuistate := { a.tuistate with
              issue_thread := a.tuistate.issue_thread.set_issue_id issue_id,
              page := .IssueThread,
              focus := .IssueThread } })
        | none => .ok (.Stop, a)
      -- Focus search filter box
      else if key = KeyCode.Char '/' then
        if e.is_char '/' = true then
          .ok (.Stop, { a with tuistate := { a.tuistate with
            focus := .IssueTableFilter,
            issue_table := { a.tuistate.issue_table with
              filter_input := a.tuistate.issue_table.filter_input.set_focused true } } })
        else .ok (.Continue, a)
      else .ok (.Continue, a)
    | none => .ok (.Continue, a)
  | .IssueTableFilter =>
    match e.keypress with
    -- Move focus back to input list.
    | some .Esc | some .Enter =>
      .ok (.Stop, { a with tuistate := { a.tuistate with
        focus := .IssueTable,
        issue_table := { a.tuistate.issue_table with
          filter_input := a.tuistate.issue_table.filter_input.set_focused false } } })
    -- Delegate event to the input box.
    | _ =>
      let r := a.tuistate.issue_table.filter_input.handle_input e
      .ok (r.1, { a with tuistate := { a.tuistate with
        issue_table := { a.tuistate.issue_table with filter_input := r.2 } } })
  | _ =>
    .ok (.Stop, { a with tuistate := { a.tuistate with focus := .IssueTable } })

/-- `IssueThreadPageInput::handle` for `App`
(`src/feat/tui_issue_thread/input.rs` lines 70-150). -/
def App.issue_thread_handle (a : App) (e : Event) :
    Except InputError (EventPropagation × App) :=
  match a.tuistate.focus with
  | .IssueThread =>
    match e.keypress with
    | some key =>
      -- Back to issue table
      if key = KeyCode.Char 'q' ∨ key = KeyCode.Esc then
        .ok (.Stop, { a with tuistate := { a.tuistate with
          page := .IssueTable,
          focus := .IssueTable,
          issue_thread := { a.tuistate.issue_thread with show_help := false } } })
      -- Cursor down
      else if key = .Down ∨ key = .Char 'j' then
        .ok (.Stop, { a with tuistate := { a.tuistate with
          issue_thread := a.tuistate.issue_thread.cursor_next } })
      -- Cursor up
      else if key = .Up ∨ key = .Char 'k' then
        .ok (.Stop, { a with tuistate := { a.tuistate with
          issue_thread := a.tuistate.issue_thread.cursor_previous } })
      -- Cursor page down
      else if key = KeyCode.Char 'd' ∧ modsControl e.modifiers = true then
        .ok (.Stop, { a with tuistate := { a.tuistate with
          issue_thread := a.tuistate.issue_thread.cursor_add 10 } })
      -- Cursor page up
      else if key = KeyCode.Char 'u' ∧ modsControl e.modifiers = true then
        .ok (.Stop, { a with tuistate := { a.tuistate with
          issue_thread := a.tuistate.issue_thread.cursor_sub 10 } })
      -- Toggle help
      else if key = KeyCode.Char '?' then
        .ok (.Stop, { a with tuistate := { a.tuistate with
          issue_thread := a.tuistate.issue_thread.toggle_help } })
      -- Add new comment
      else if key = KeyCode.Char 'a' then
        let ed := (a.external_editor.edit "Enter comment here.\n\n" "txt"
          (.addComment a.tuistate.issue_thread.issue_id)).2
        .ok (.Stop, { a with external_editor := ed })
      else .ok (.Continue, a)
    | none => .ok (.Continue, a)
  | _ =>
    .ok (.Stop, { a with tuistate := { a.tuistate with focus := .IssueThread } })

/-- Page-level routing: `App::handle_event` matches on the current page only
and lets the page handler manage focus.  In this snapshot `app.rs` matches
the sole `Page::IssueTable` variant; the thread page added by the newer
sources is wired to its handler per the spec's router contract (exactly one
handler per page). -/
def App.page_handle (enc : IssueEvent → String) (orc : AppendOracle)
    (a : App) (e : Event) : Except InputError (EventPropagation × App) :=
  match a.tuistate.page with
  | .IssueTable => App.issue_table_handle enc orc a e
  | .IssueThread => App.issue_thread_handle a e

/-- `App::handle_event` (`src/app.rs` lines 233-256): run page-level routing,
then, only when it returned `Continue`, interpret top-level keystrokes —
a key event whose code is `Char('q')` sets the quit flag. -/
def App.handle_event (enc : IssueEvent → String) (orc : AppendOracle)
    (a : App) (e : Event) : Except InputError App :=
  match App.page_handle enc orc a e with
  | .error err => .error err
  | .ok (propagation, a') =>
    match propagation with
    | .Continue =>
      match e with
      | .Key key =>
        if key.code = KeyCode.Char 'q' then .ok { a' with should_quit := true }
        else .ok a'
      | _ => .ok a'
    | .Stop => .ok a'

/-! ## Specification-side characterizations (used only to state claims) -/

/-- Position (0-based, counting every physical line) and trimmed content of
the first non-blank line that fails to decode, if any. -/
def firstUndecodable (dec : String → Option IssueEvent) :
    Nat → List String → Option (Nat × String)
  | _, [] => none
  | idx, line :: rest =>
    let t := rustTrim line
    if t.data = [] then firstUndecodable dec (idx + 1) rest
    else
      match dec t with
      | none => some (idx, t)
      | some _ => firstUndecodable dec (idx + 1) rest

/-- The records of the non-blank lines, in file order. -/
def decodedEvents (dec : String → Option IssueEvent) (lines : List String) :
    List IssueEvent :=
  lines.filterMap (fun line =>
    let t := rustTrim line
    if t.data = [] then none else dec t)

/-! ## Lemmas about the map model -/

theorem hmLookup_hmInsert {α : Type} (k q : IssueId) (v : α) (m : List (IssueId × α)) :
    hmLookup q (hmInsert k v m) = if k = q then some v else hmLookup q m := by
  induction m with
  | nil => simp [hmInsert, hmLookup]
  | cons p rest ih =>
    obtain ⟨k', v'⟩ := p
    by_cases hk : k' = k
    · subst hk
      simp only [hmInsert, if_pos rfl, hmLookup]
      by_cases hq : k' = q <;> simp [hq]
    · simp only [hmInsert, if_neg hk, hmLookup]
      by_cases hq : k' = q
      · have hkq : ¬ k = q := fun h => hk (hq.trans h.symm)
        simp [hq, hkq]
      · simp [hq, ih]

theorem hmLookup_hmPushComment (k q : IssueId) (c : Comment)
    (m : List (IssueId × List Comment)) :
    hmLookup q (hmPushComment k c m) =
      if k = q then some (((hmLookup k m).getD []) ++ [c]) else hmLookup q m := by
  induction m with
  | nil => simp [hmPushComment, hmLookup]
  | cons p rest ih =>
    obtain ⟨k', cs⟩ := p
    by_cases hk : k' = k
    · subst hk
      simp only [hmPushComment, if_pos rfl, hmLookup]
      by_cases hq : k' = q <;> simp [hq]
    · simp only [hmPushComment, if_neg hk, hmLookup]
      have hk2 : hmLookup k ((k', cs) :: rest) = hmLookup k rest := by
        simp [hmLookup, hk]
      by_cases hq : k' = q
      · have hkq : ¬ k = q := fun h => hk (hq.trans h.symm)
        simp [hq, hkq]
      · simp [hq, ih, hk]

theorem hmModify_absent {α : Type} (k : IssueId) (f : α → α) (m : List (IssueId × α))
    (h : hmLookup k m = none) : hmModify k f m = m := by
  induction m with
  | nil => simp [hmModify]
  | cons p rest ih =>
    obtain ⟨k', v⟩ := p
    by_cases hk : k' = k
    · subst hk
      simp [hmLookup] at h
    · simp only [hmLookup, if_neg hk] at h
      simp [hmModify, hk, ih h]

/-! ## C1: `apply_event` semantics -/

/-- C1: `apply_event` gives `IssueCreated` last-write-wins insertion at the
issue's own id (leaving comments alone), appends a `CommentAdded` comment at
the end of its parent's list — created on demand — (leaving issues alone),
and makes `StatusChanged`/`PriorityChanged` exact no-ops when the target id
is absent from the issues map; being a total function, it raises no error. -/
theorem apply_event_semantics (s : Issues) (item : Issue) (c : Comment)
    (i : IssueId) (st : Status) (p : Priority) (q : IssueId) :
    (hmLookup q (s.apply_event (.IssueCreated item)).issues
        = if item.id = q then some item else hmLookup q s.issues)
    ∧ (s.apply_event (.IssueCreated item)).comments = s.comments
    ∧ (hmLookup q (s.apply_event (.CommentAdded c)).comments
        = if c.parent_issue = q then some (((hmLookup c.parent_issue s.comments).getD []) ++ [c])
          else hmLookup q s.comments)
    ∧ (s.apply_event (.CommentAdded c)).issues = s.issues
    ∧ (hmLookup i s.issues = none → s.apply_event (.StatusChanged i st) = s)
    ∧ (hmLookup i s.issues = none → s.apply_event (.PriorityChanged i p) = s) := by
  refine ⟨?_, rfl, ?_, rfl, ?_, ?_⟩
  · simp [Issues.apply_event, hmLookup_hmInsert]
  · simp [Issues.apply_event, hmLookup_hmPushComment]
  · intro h
    simp [Issues.apply_event, hmModify_absent _ _ _ h]
  · intro h
    simp [Issues.apply_event, hmModify_absent _ _ _ h]

/-- Witness for `apply_event_semantics` at a concrete store and concrete
events (store holding issue 1; unknown id 99). -/
theorem apply_event_semantics_witness :
    let issue1 : Issue :=
      { id := 1, title := "a", created := 0, status := .Open, priority := .Low,
        created_by := "u", custom := [] }
    let s : Issues := { issues := [(1, issue1)], comments := [] }
    let item : Issue :=
      { id := 1, title := "b", created := 2, status := .Closed, priority := .High,
        created_by := "v", custom := [] }
    let c : Comment := { parent_issue := 1, content := "hi", created := 3, created_by := "w" }
    (hmLookup 1 (s.apply_event (.IssueCreated item)).issues = some item)
    ∧ (hmLookup 1 (s.apply_event (.CommentAdded c)).comments = some [c])
    ∧ (hmLookup 99 s.issues = none → s.apply_event (.StatusChanged 99 .Closed) = s) := by
  intro issue1 s item c
  have h := apply_event_semantics s item c 99 .Closed .High 1
  refine ⟨?_, ?_, h.2.2.2.2.1⟩
  · rw [h.1]; simp
  · rw [h.2.2.1]; simp [s, hmLookup]

/-! ## C4: `next_issue_id` -/

theorem max?_map_succ (l : List Nat) :
    (l.map (fun n => n + 1)).max? = l.max?.map (fun n => n + 1) := by
  induction l with
  | nil => rfl
  | cons a rest ih =>
    cases hr : rest.max? with
    | none =>
      rw [hr] at ih
      simp [List.max?_cons, ih, hr]
    | some m =>
      rw [hr] at ih
      simp only [List.map_cons, List.max?_cons, ih, hr, Option.map_some, Option.elim]
      have hmx : max (a + 1) (m + 1) = (max a m) + 1 := by omega
      simp [hmx]

/-- C4: `next_issue_id` is 1 on an empty store and `max + 1` on a non-empty
store, whatever the id set (contiguous or not). -/
theorem next_issue_id_spec (s : Issues) :
    (s.issues = [] → s.next_issue_id = 1)
    ∧ (∀ m, (s.issues.map Prod.fst).max? = some m → s.next_issue_id = m + 1) := by
  constructor
  · intro h
    simp [Issues.next_issue_id, h]
  · intro m hm
    have hmap : (s.issues.map (fun p => p.1 + 1))
        = (s.issues.map Prod.fst).map (fun n => n + 1) := by
      simp [List.map_map]
    rw [Issues.next_issue_id, hmap, max?_map_succ, hm]
    rfl

/-- Witness for `next_issue_id_spec`: a store built from ids {1,3,5} yields 6,
and the empty store yields 1. -/
theorem next_issue_id_spec_witness :
    let issue : IssueId → Issue := fun n =>
      { id := n, title := "", created := 0, status := .Open, priority := .Trivial,
        created_by := "", custom := [] }
    let s : Issues := { issues := [(1, issue 1), (3, issue 3), (5, issue 5)], comments := [] }
    s.next_issue_id = 6 ∧ Issues.empty.next_issue_id = 1 := by
  intro issue s
  constructor
  · exact (next_issue_id_spec s).2 5 (by decide)
  · exact (next_issue_id_spec Issues.empty).1 rfl

/-! ## C2: `append_to_log` is atomic with respect to the projection -/

/-- C2: whichever step of `append_to_log` fails — opening the file, the JSON
serialization, the write of the JSON line, or the write of the trailing
newline — the call returns that error and the projection is exactly the one
passed in; the event reaches the projection exactly on the all-success path,
after both writes, the file then ending in the serialized line plus `\n`. -/
theorem append_to_log_projection (enc : IssueEvent → String) (orc : AppendOracle)
    (s : Issues) (file : String) (event : IssueEvent) :
    (∀ err, (Issues.append_to_log enc orc s file event).1 = .error err →
      (Issues.append_to_log enc orc s file event).2.1 = s)
    ∧ ((Issues.append_to_log enc orc s file event).1 = .ok () →
      (Issues.append_to_log enc orc s file event).2.1 = s.apply_event event
      ∧ (Issues.append_to_log enc orc s file event).2.2 = file ++ enc event ++ "\n") := by
  unfold Issues.append_to_log
  rcases orc with ⟨o, sz, we, wn⟩
  cases o <;> cases sz <;> cases we <;> cases wn <;> simp

/-- Witness for `append_to_log_projection`: a failing newline write leaves a
concrete projection untouched, and the all-success path applies the event. -/
theorem append_to_log_projection_witness :
    let issue : Issue :=
      { id := 1, title := "t", created := 0, status := .Open, priority := .Low,
        created_by := "u", custom := [] }
    let event : IssueEvent := .IssueCreated issue
    let enc : IssueEvent → String := fun _ => "J"
    let badOrc : AppendOracle :=
      { fileOpens := true, serializes := true, writesEvent := true, writesNewline := false }
    ((Issues.append_to_log enc badOrc Issues.empty "" event).2.1 = Issues.empty)
    ∧ ((Issues.append_to_log enc .allOk Issues.empty "" event).2.1
        = Issues.empty.apply_event event) := by
  intro issue event enc badOrc
  constructor
  · exact (append_to_log_projection enc badOrc Issues.empty "" event).1 .writeNewlineFailed rfl
  · exact ((append_to_log_projection enc .allOk Issues.empty "" event).2 rfl).1

/-! ## C5: `from_jsonl_file` line handling -/

theorem decodeLinesFrom_spec (dec : String → Option IssueEvent) (lines : List String)
    (idx : Nat) :
    (firstUndecodable dec idx lines = none →
      decodeLinesFrom dec idx lines = .ok (decodedEvents dec lines))
    ∧ (∀ i t, firstUndecodable dec idx lines = some (i, t) →
      decodeLinesFrom dec idx lines = .error { line := i + 1, content := t }) := by
  induction lines generalizing idx with
  | nil => simp [firstUndecodable, decodeLinesFrom, decodedEvents]
  | cons line rest ih =>
    by_cases ht : (rustTrim line).data = []
    · have h1 : firstUndecodable dec idx (line :: rest) = firstUndecodable dec (idx + 1) rest := by
        simp [firstUndecodable, ht]
      have h2 : decodeLinesFrom dec idx (line :: rest) = decodeLinesFrom dec (idx + 1) rest := by
        simp [decodeLinesFrom, ht]
      have h3 : decodedEvents dec (line :: rest) = decodedEvents dec rest := by
        simp [decodedEvents, ht]
      rw [h1, h2, h3]
      exact ih (idx + 1)
    · cases hdec : dec (rustTrim line) with
      | none =>
        have h1 : firstUndecodable dec idx (line :: rest) = some (idx, rustTrim line) := by
          simp [firstUndecodable, ht, hdec]
        have h2 : decodeLinesFrom dec idx (line :: rest)
            = .error { line := idx + 1, content := rustTrim line } := by
          simp [decodeLinesFrom, ht, hdec]
        rw [h1, h2]
        constructor
        · intro h
          simp at h
        · intro i t h
          simp only [Option.some.injEq, Prod.mk.injEq] at h
          obtain ⟨h1', h2'⟩ := h
          subst h1'
          subst h2'
          rfl
      | some ev =>
        have h1 : firstUndecodable dec idx (line :: rest) = firstUndecodable dec (idx + 1) rest := by
          simp [firstUndecodable, ht, hdec]
        have h2 : decodeLinesFrom dec idx (line :: rest)
            = (decodeLinesFrom dec (idx + 1) rest).map (fun evs => ev :: evs) := by
          simp [decodeLinesFrom, ht, hdec]
        have h3 : decodedEvents dec (line :: rest) = ev :: decodedEvents dec rest := by
          simp [decodedEvents, ht, hdec]
        rw [h1, h2, h3]
        constructor
        · intro h
          rw [(ih (idx + 1)).1 h]
          rfl
        · intro i t h
          rw [(ih (idx + 1)).2 i t h]
          rfl

/-- C5 (amended): `from_jsonl_file` reads the file line by line, skips blank
lines, decodes every non-blank line (after trimming) as one record and folds
them in order; when some non-blank line fails to decode, the first such line
aborts the load with an error carrying that line's 1-based line number and
its whitespace-trimmed content — a failing line is never silently skipped. -/
theorem from_jsonl_file_line_handling (dec : String → Option IssueEvent) (content : String) :
    (firstUndecodable dec 0 (rustLines content) = none →
      Issues.from_jsonl_file dec content
        = .ok (Issues.from_events (decodedEvents dec (rustLines content))))
    ∧ (∀ i t, firstUndecodable dec 0 (rustLines content) = some (i, t) →
      Issues.from_jsonl_file dec content = .error { line := i + 1, content := t }) := by
  have h := decodeLinesFrom_spec dec (rustLines content) 0
  constructor
  · intro hnone
    unfold Issues.from_jsonl_file Issues.from_jsonl_lines
    rw [h.1 hnone]
    rfl
  · intro i t hsome
    unfold Issues.from_jsonl_file Issues.from_jsonl_lines
    rw [h.2 i t hsome]
    rfl

/-- Witness for `from_jsonl_file_line_handling`: with a decoder accepting
exactly `"E"`, the file `"E\n\n E\n"` (blank middle line, padded third line)
loads to the two decoded events, and the file `"E\nBAD\n"` aborts at line 2
with the trimmed content. -/
theorem from_jsonl_file_line_handling_witness :
    let c0 : Comment := { parent_issue := 4, content := "", created := 0, created_by := "" }
    let dec : String → Option IssueEvent :=
      fun s => if s = "E" then some (.CommentAdded c0) else none
    (Issues.from_jsonl_file dec "E\n\n E\n"
      = .ok (Issues.from_events [.CommentAdded c0, .CommentAdded c0]))
    ∧ (Issues.from_jsonl_file dec "E\nBAD\n" = .error { line := 2, content := "BAD" }) := by
  intro c0 dec
  constructor
  · have h := (from_jsonl_file_line_handling dec "E\n\n E\n").1 (by decide)
    rw [h]
    have hde : decodedEvents dec (rustLines "E\n\n E\n")
        = [.CommentAdded c0, .CommentAdded c0] := by decide
    rw [hde]
  · exact (from_jsonl_file_line_handling dec "E\nBAD\n").2 1 "BAD" (by decide)

/-- C5, as frozen, is false in one detail: the load error reports the
*trimmed* line content (the source shadows `line` with `line.trim()` before
attaching `content: {line}`), not the raw content.  Concretely, for a file
whose only line is `" x"` under a decoder that rejects everything, the error
content is `"x"`, which differs from the raw line `" x"`. -/
theorem load_error_content_is_trimmed_not_raw :
    (Issues.from_jsonl_file (fun _ => none) " x" = .error { line := 1, content := "x" })
    ∧ rustLines " x" = [" x"]
    ∧ ("x" : String) ≠ " x" := by
  refine ⟨?_, by decide, by decide⟩
  exact (from_jsonl_file_line_handling (fun _ => none) " x").2 0 "x" (by decide)

/-! ## Line-splitting lemmas for the writer / loader round trip -/

theorem string_data_append (a b : String) : (a ++ b).data = a.data ++ b.data := by
  cases a
  cases b
  rfl

theorem string_mk_data (s : String) : String.mk s.data = s := by
  cases s
  rfl

theorem string_append_assoc (a b c : String) : a ++ b ++ c = a ++ (b ++ c) := by
  cases a with
  | mk la =>
    cases b with
    | mk lb =>
      cases c with
      | mk lc =>
        show String.mk (la ++ lb ++ lc) = String.mk (la ++ (lb ++ lc))
        rw [List.append_assoc]

theorem string_empty_append (s : String) : "" ++ s = s := by
  cases s with
  | mk l =>
    show String.mk ([] ++ l) = String.mk l
    rw [List.nil_append]

theorem string_append_empty (s : String) : s ++ "" = s := by
  cases s with
  | mk l =>
    show String.mk (l ++ []) = String.mk l
    rw [List.append_nil]

theorem lineSegments_cons (c : Char) (l : List Char) :
    lineSegments (c :: l) =
      match lineSegments l with
      | [] => [[]]
      | a :: as => if c = '\n' then [] :: a :: as else (c :: a) :: as := rfl

theorem lineSegments_ne_nil (l : List Char) : lineSegments l ≠ [] := by
  cases l with
  | nil => simp [lineSegments]
  | cons c rest =>
    simp only [lineSegments]
    cases h : lineSegments rest with
    | nil => simp
    | cons a as =>
      by_cases hc : c = '\n' <;> simp [hc]

theorem lineSegments_append_newline (l1 rest : List Char) (h : '\n' ∉ l1) :
    lineSegments (l1 ++ '\n' :: rest) = l1 :: lineSegments rest := by
  induction l1 with
  | nil =>
    simp only [List.nil_append, lineSegments]
    cases hr : lineSegments rest with
    | nil => exact absurd hr (lineSegments_ne_nil rest)
    | cons a as => simp
  | cons c cs ih =>
    have hc : c ≠ '\n' := fun hh => h (hh ▸ List.mem_cons_self c cs)
    have hcs : '\n' ∉ cs := fun hh => h (List.mem_cons_of_mem c hh)
    rw [List.cons_append, lineSegments_cons, ih hcs]
    simp [hc]

theorem stripCr_of_not_mem (l : List Char) (h : '\r' ∉ l) : stripCr l = l := by
  unfold stripCr
  cases hg : l.getLast? with
  | none => simp
  | some c =>
    by_cases hc : c = '\r'
    · subst hc
      exact absurd (List.mem_of_mem_getLast? hg) h
    · simp [hc]

theorem finishLines_cons_cons (a b : List Char) (ls : List (List Char)) :
    finishLines (a :: b :: ls) = stripCr a :: finishLines (b :: ls) := by
  rfl

/-- The data of a written log file: each serialized record followed by a
newline. -/
theorem logFile_data (enc : IssueEvent → String) (e : IssueEvent) (evs : List IssueEvent) :
    (logFile enc (e :: evs)).data = (enc e).data ++ '\n' :: (logFile enc evs).data := by
  show (enc e ++ "\n" ++ logFile enc evs).data = _
  rw [string_append_assoc, string_data_append, string_data_append]
  rfl

/-- Splitting a well-formed log file recovers exactly the serialized records,
in order. -/
theorem rustLines_logFile (enc : IssueEvent → String) (evs : List IssueEvent)
    (hchar : ∀ e ∈ evs, ∀ c ∈ (enc e).data, c ≠ '\n' ∧ c ≠ '\r') :
    rustLines (logFile enc evs) = evs.map enc := by
  have core : ∀ evs : List IssueEvent,
      (∀ e ∈ evs, ∀ c ∈ (enc e).data, c ≠ '\n' ∧ c ≠ '\r') →
      finishLines (lineSegments (logFile enc evs).data)
        = evs.map (fun e => (enc e).data) := by
    intro evs
    induction evs with
    | nil => intro _; rfl
    | cons e rest ih =>
      intro hh
      have hhe := hh e (List.mem_cons_self e rest)
      have hhr : ∀ e' ∈ rest, ∀ c ∈ (enc e').data, c ≠ '\n' ∧ c ≠ '\r' :=
        fun e' he' => hh e' (List.mem_cons_of_mem e he')
      have hnl : '\n' ∉ (enc e).data := fun hm => (hhe _ hm).1 rfl
      have hcr : '\r' ∉ (enc e).data := fun hm => (hhe _ hm).2 rfl
      rw [logFile_data, lineSegments_append_newline _ _ hnl]
      cases hr : lineSegments (logFile enc rest).data with
      | nil => exact absurd hr (lineSegments_ne_nil _)
      | cons a as =>
        rw [finishLines_cons_cons, stripCr_of_not_mem _ hcr, ← hr, ih hhr]
        rfl
  unfold rustLines
  rw [core evs hchar, List.map_map]
  exact List.map_congr_left (fun e _ => string_mk_data (enc e))

/-- Decoding the serialized records succeeds record by record when the codec
round-trips on them and produces trimmed non-empty lines. -/
theorem decodeLinesFrom_map_enc (dec : String → Option IssueEvent)
    (enc : IssueEvent → String) (evs : List IssueEvent) :
    ∀ idx, (∀ e ∈ evs, dec (enc e) = some e) →
    (∀ e ∈ evs, rustTrim (enc e) = enc e) →
    (∀ e ∈ evs, enc e ≠ "") →
    decodeLinesFrom dec idx (evs.map enc) = .ok evs := by
  induction evs with
  | nil => intro idx _ _ _; rfl
  | cons e rest ih =>
    intro idx hdec htrim hne
    have he := htrim e (List.mem_cons_self e rest)
    have hd : ¬ (enc e).data = [] := by
      intro hnil
      exact hne e (List.mem_cons_self e rest) (by rw [← string_mk_data (enc e), hnil])
    simp only [List.map_cons, decodeLinesFrom, he, hd, if_false, if_neg hd,
      hdec e (List.mem_cons_self e rest)]
    rw [ih (idx + 1) (fun x hx => hdec x (List.mem_cons_of_mem e hx))
      (fun x hx => htrim x (List.mem_cons_of_mem e hx))
      (fun x hx => hne x (List.mem_cons_of_mem e hx))]
    rfl

/-- Loading a log file that holds exactly the given records, one per line,
produces the fold of `apply_event` over them (the shared core of the replay
claims). -/
theorem from_jsonl_file_logFile (dec : String → Option IssueEvent)
    (enc : IssueEvent → String) (evs : List IssueEvent)
    (hdec : ∀ e ∈ evs, dec (enc e) = some e)
    (htrim : ∀ e ∈ evs, rustTrim (enc e) = enc e)
    (hne : ∀ e ∈ evs, enc e ≠ "")
    (hchar : ∀ e ∈ evs, ∀ c ∈ (enc e).data, c ≠ '\n' ∧ c ≠ '\r') :
    Issues.from_jsonl_file dec (logFile enc evs) = .ok (Issues.from_events evs) := by
  unfold Issues.from_jsonl_file Issues.from_jsonl_lines
  rw [rustLines_logFile enc evs hchar, decodeLinesFrom_map_enc dec enc evs 0 hdec htrim hne]
  rfl

/-! ## C3: replay determinism -/

/-- C3: for every finite sequence of records whose serialized forms decode
back to themselves (and are single trimmed non-empty lines), loading a file
holding exactly those records one per line equals folding `apply_event` over
the records, in file order, from the empty projection. -/
theorem load_replays_apply (dec : String → Option IssueEvent)
    (enc : IssueEvent → String) (evs : List IssueEvent)
    (hdec : ∀ e ∈ evs, dec (enc e) = some e)
    (htrim : ∀ e ∈ evs, rustTrim (enc e) = enc e)
    (hne : ∀ e ∈ evs, enc e ≠ "")
    (hchar : ∀ e ∈ evs, ∀ c ∈ (enc e).data, c ≠ '\n' ∧ c ≠ '\r') :
    Issues.from_jsonl_file dec (logFile enc evs)
      = .ok (evs.foldl Issues.apply_event Issues.empty) :=
  from_jsonl_file_logFile dec enc evs hdec htrim hne hchar

/-- Witness for `load_replays_apply`: a two-record log under a concrete codec
loads to the two-step fold. -/
theorem load_replays_apply_witness :
    let issue1 : Issue :=
      { id := 1, title := "t", created := 0, status := .Open, priority := .Low,
        created_by := "u", custom := [] }
    let evs : List IssueEvent := [.IssueCreated issue1, .StatusChanged 1 .Closed]
    let enc : IssueEvent → String := fun e =>
      match e with
      | .IssueCreated _ => "A"
      | .StatusChanged _ _ => "B"
      | _ => "Z"
    let dec : String → Option IssueEvent := fun s =>
      if s = "A" then some (.IssueCreated issue1)
      else if s = "B" then some (.StatusChanged 1 .Closed)
      else none
    Issues.from_jsonl_file dec (logFile enc evs)
      = .ok (evs.foldl Issues.apply_event Issues.empty) := by
  intro issue1 evs enc dec
  exact load_replays_apply dec enc evs (by decide) (by decide) (by decide) (by decide)

/-! ## C6: append twice, then reload -/

/-- C6: starting from an empty log file and the empty projection, appending
`IssueCreated` for an issue with id 7 and then `CommentAdded` for a comment
whose parent is 7 both succeed (all I/O steps succeeding), and reloading the
resulting file yields the projection with exactly one issue, stored under id
7, and exactly one comment attached to issue 7. -/
theorem append_then_reload (enc : IssueEvent → String) (dec : String → Option IssueEvent)
    (issue : Issue) (c : Comment) (hid : issue.id = 7) (hpc : c.parent_issue = 7)
    (hdec : ∀ e ∈ [IssueEvent.IssueCreated issue, IssueEvent.CommentAdded c],
      dec (enc e) = some e)
    (htrim : ∀ e ∈ [IssueEvent.IssueCreated issue, IssueEvent.CommentAdded c],
      rustTrim (enc e) = enc e)
    (hne : ∀ e ∈ [IssueEvent.IssueCreated issue, IssueEvent.CommentAdded c], enc e ≠ "")
    (hchar : ∀ e ∈ [IssueEvent.IssueCreated issue, IssueEvent.CommentAdded c],
      ∀ ch ∈ (enc e).data, ch ≠ '\n' ∧ ch ≠ '\r') :
    let step1 := Issues.append_to_log enc .allOk Issues.empty "" (.IssueCreated issue)
    let step2 := Issues.append_to_log enc .allOk step1.2.1 step1.2.2 (.CommentAdded c)
    step1.1 = .ok () ∧ step2.1 = .ok ()
      ∧ Issues.from_jsonl_file dec step2.2.2
          = .ok { issues := [(7, issue)], comments := [(7, [c])] } := by
  intro step1 step2
  refine ⟨rfl, rfl, ?_⟩
  have hfile : step2.2.2
      = logFile enc [IssueEvent.IssueCreated issue, IssueEvent.CommentAdded c] := by
    show ((("" ++ enc (IssueEvent.IssueCreated issue)) ++ "\n")
        ++ enc (IssueEvent.CommentAdded c)) ++ "\n" = _
    rw [string_empty_append, string_append_assoc]
    show _ = enc (IssueEvent.IssueCreated issue) ++ "\n"
        ++ (enc (IssueEvent.CommentAdded c) ++ "\n" ++ logFile enc [])
    rw [show logFile enc [] = "" from rfl, string_append_empty]
  have hfold : Issues.from_events [IssueEvent.IssueCreated issue, IssueEvent.CommentAdded c]
      = { issues := [(7, issue)], comments := [(7, [c])] } := by
    simp [Issues.from_events, Issues.apply_event, Issues.empty, hmInsert, hmPushComment,
      hid, hpc]
  rw [hfile, from_jsonl_file_logFile dec enc _ hdec htrim hne hchar, hfold]

/-- Witness for `append_then_reload`: a concrete issue 7 and comment under a
concrete two-symbol codec. -/
theorem append_then_reload_witness :
    let issue : Issue :=
      { id := 7, title := "seven", created := 1, status := .Open, priority := .Medium,
        created_by := "me", custom := [] }
    let c : Comment := { parent_issue := 7, content := "first", created := 2, created_by := "me" }
    let enc : IssueEvent → String := fun e =>
      match e with
      | .IssueCreated _ => "I"
      | .CommentAdded _ => "C"
      | _ => "Z"
    let dec : String → Option IssueEvent := fun s =>
      if s = "I" then some (.IssueCreated issue)
      else if s = "C" then some (.CommentAdded c)
      else none
    let step1 := Issues.append_to_log enc .allOk Issues.empty "" (.IssueCreated issue)
    let step2 := Issues.append_to_log enc .allOk step1.2.1 step1.2.2 (.CommentAdded c)
    step1.1 = .ok () ∧ step2.1 = .ok ()
      ∧ Issues.from_jsonl_file dec step2.2.2
          = .ok { issues := [(7, issue)], comments := [(7, [c])] } := by
  intro issue c enc dec step1 step2
  exact append_then_reload enc dec issue c rfl rfl
    (by decide) (by decide) (by decide) (by decide)

/-! ## Page handlers never touch the quit flag, and the routed claims C7, C8, C10 -/

theorem toggleStatusLoop_should_quit (enc : IssueEvent → String) (orc : AppendOracle) :
    ∀ (idxs : List Nat) (a a' : App), toggleStatusLoop enc orc idxs a = .ok a' →
      a'.should_quit = a.should_quit := by
  intro idxs
  induction idxs with
  | nil =>
    intro a a' h
    simp only [toggleStatusLoop, Except.ok.injEq] at h
    rw [← h]
  | cons i rest ih =>
    intro a a' h
    unfold toggleStatusLoop at h
    split at h
    · exact Except.noConfusion h
    · split at h
      · exact Except.noConfusion h
      · split at h
        · exact Except.noConfusion h
        · have hq := ih _ a' h
          exact hq

set_option maxHeartbeats 1000000 in
theorem issue_thread_handle_should_quit (a : App) (e : Event)
    (prop : EventPropagation) (a' : App)
    (h : App.issue_thread_handle a e = .ok (prop, a')) :
    a'.should_quit = a.should_quit := by
  unfold App.issue_thread_handle at h
  split at h
  · split at h
    · split_ifs at h
      all_goals (injection h with hp; injection hp with hprop hstate; rw [← hstate])
    · injection h with hp; injection hp with hprop hstate; rw [← hstate]
  · injection h with hp; injection hp with hprop hstate; rw [← hstate]

set_option maxHeartbeats 1000000 in
theorem issue_table_handle_should_quit (enc : IssueEvent → String) (orc : AppendOracle)
    (a : App) (e : Event) (prop : EventPropagation) (a' : App)
    (h : App.issue_table_handle enc orc a e = .ok (prop, a')) :
    a'.should_quit = a.should_quit := by
  unfold App.issue_table_handle at h
  split at h
  · -- Focus.IssueTable
    split at h
    · -- a key press
      rename_i key hkey
      by_cases h1 : key = KeyCode.Char 'c'
      · rw [if_pos h1] at h
        injection h with hp; injection hp with hprop hstate; subst hstate; rfl
      · rw [if_neg h1] at h
        by_cases h2 : key = KeyCode.Char 'n'
        · rw [if_pos h2] at h
          injection h with hp; injection hp with hprop hstate; subst hstate; rfl
        · rw [if_neg h2] at h
          by_cases h3 : (key = .Down ∨ key = .Char 'J' ∨ key = .Char 'j') ∧ modsShift e.modifiers = true
          · rw [if_pos h3] at h
            injection h with hp; injection hp with hprop hstate; subst hstate; rfl
          · rw [if_neg h3] at h
            by_cases h4 : (key = .Up ∨ key = .Char 'K' ∨ key = .Char 'k') ∧ modsShift e.modifiers = true
            · rw [if_pos h4] at h
              injection h with hp; injection hp with hprop hstate; subst hstate; rfl
            · rw [if_neg h4] at h
              by_cases h5 : (key = .Right ∨ key = .Char 'L' ∨ key = .Char 'l') ∧ modsShift e.modifiers = true
              · rw [if_pos h5] at h
                injection h with hp; injection hp with hprop hstate; subst hstate; rfl
              · rw [if_neg h5] at h
                by_cases h6 : (key = .Left ∨ key = .Char 'H' ∨ key = .Char 'h') ∧ modsShift e.modifiers = true
                · rw [if_pos h6] at h
                  injection h with hp; injection hp with hprop hstate; subst hstate; rfl
                · rw [if_neg h6] at h
                  by_cases h7 : key = KeyCode.Char '?'
                  · rw [if_pos h7] at h
                    injection h with hp; injection hp with hprop hstate; subst hstate; rfl
                  · rw [if_neg h7] at h
                    by_cases h8 : key = KeyCode.Char 's'
                    · rw [if_pos h8] at h
                      split at h
                      · injection h with hp; injection hp with hprop hstate; subst hstate; rfl
                      · split at h
                        · exact Except.noConfusion h
                        · injection h with hp; injection hp with hprop hstate; subst hstate
                          exact toggleStatusLoop_should_quit enc orc _ _ _ (by assumption)
                    · rw [if_neg h8] at h
                      by_cases h9 : key = .Down ∨ key = .Char 'j'
                      · rw [if_pos h9] at h
                        injection h with hp; injection hp with hprop hstate; subst hstate; rfl
                      · rw [if_neg h9] at h
                        by_cases h10 : key = .Up ∨ key = .Char 'k'
                        · rw [if_pos h10] at h
                          injection h with hp; injection hp with hprop hstate; subst hstate; rfl
                        · rw [if_neg h10] at h
                          by_cases h11 : key = KeyCode.Enter
                          · rw [if_pos h11] at h
                            repeat split at h
                            all_goals (injection h with hp; injection hp with hprop hstate; subst hstate; rfl)
                          · rw [if_neg h11] at h
                            by_cases h12 : key = KeyCode.Char '/'
                            · rw [if_pos h12] at h
                              split at h
                              all_goals (injection h with hp; injection hp with hprop hstate; subst hstate; rfl)
                            · rw [if_neg h12] at h
                              injection h with hp; injection hp with hprop hstate; subst hstate; rfl
    · -- not a key press
      injection h with hp; injection hp with hprop hstate; subst hstate; rfl
  · -- Focus.IssueTableFilter
    split at h
    all_goals (injection h with hp; injection hp with hprop hstate; subst hstate; rfl)
  · -- any other focus
    injection h with hp; injection hp with hprop hstate; subst hstate; rfl

theorem page_handle_should_quit (enc : IssueEvent → String) (orc : AppendOracle)
    (a : App) (e : Event) (prop : EventPropagation) (a' : App)
    (h : App.page_handle enc orc a e = .ok (prop, a')) :
    a'.should_quit = a.should_quit := by
  unfold App.page_handle at h
  split at h
  · exact issue_table_handle_should_quit enc orc a e prop a' h
  · exact issue_thread_handle_should_quit a e prop a' h

/-- C7: with the issue table page active and the table focused, a `/`
key-press moves focus to the table's filter box and the handler returns
`Stop`; a subsequent `Esc` key-press (focus now on the filter box) moves
focus back to the table, again returning `Stop`. -/
theorem slash_focuses_filter_esc_returns (enc : IssueEvent → String) (orc : AppendOracle)
    (a : App) (m m' : KeyModifiers)
    (hp : a.tuistate.page = .IssueTable) (hf : a.tuistate.focus = .IssueTable) :
    ∃ a', App.page_handle enc orc a (.Key ⟨.Char '/', m, .Press⟩) = .ok (.Stop, a')
      ∧ a'.tuistate.focus = .IssueTableFilter
      ∧ a'.tuistate.page = .IssueTable
      ∧ ∃ a'', App.page_handle enc orc a' (.Key ⟨.Esc, m', .Press⟩) = .ok (.Stop, a'')
        ∧ a''.tuistate.focus = .IssueTable := by
  obtain ⟨iss, log, ⟨pg, fc, tbl, thr⟩, ed, q⟩ := a
  have hp' : pg = Page.IssueTable := hp
  have hf' : fc = Focus.IssueTable := hf
  subst hp'
  subst hf'
  exact ⟨_, rfl, rfl, rfl, _, rfl, rfl⟩

/-- C8: `App::handle_event` runs the global layer only when page-level
routing returned `Continue`: starting with the quit flag clear, the flag ends
up set exactly when the page handler returned `Continue` and the event is a
key event whose code is `Char('q')`; when the page handler returns `Stop`,
the outer layer leaves its result untouched (the event is not
reinterpreted). -/
theorem quit_flag_only_on_continue (enc : IssueEvent → String) (orc : AppendOracle)
    (a : App) (e : Event) (prop : EventPropagation) (a' : App)
    (h : App.page_handle enc orc a e = .ok (prop, a'))
    (hq : a.should_quit = false) :
    ∃ a'', App.handle_event enc orc a e = .ok a''
      ∧ (a''.should_quit = true ↔
          (prop = .Continue ∧ ∃ k, e = .Key k ∧ k.code = .Char 'q'))
      ∧ (prop = .Stop → a'' = a') := by
  have hpq : a'.should_quit = false := (page_handle_should_quit enc orc a e prop a' h).trans hq
  unfold App.handle_event
  rw [h]
  cases prop with
  | Stop =>
    refine ⟨a', rfl, ?_, fun _ => rfl⟩
    simp [hpq]
  | Continue =>
    cases e with
    | Key k =>
      by_cases hk : k.code = KeyCode.Char 'q'
      · refine ⟨{ a' with should_quit := true }, by simp [hk], ?_, by simp⟩
        exact ⟨fun _ => ⟨rfl, k, rfl, hk⟩, fun _ => rfl⟩
      · refine ⟨a', by simp [hk], ?_, by simp⟩
        simp only [hpq, Bool.false_eq_true, false_iff]
        rintro ⟨-, k', hk', hcode⟩
        cases hk'
        exact hk hcode
    | Init => exact ⟨a', rfl, by simp [hpq], by simp⟩
    | Quit => exact ⟨a', rfl, by simp [hpq], by simp⟩
    | Error => exact ⟨a', rfl, by simp [hpq], by simp⟩
    | Closed => exact ⟨a', rfl, by simp [hpq], by simp⟩
    | Tick => exact ⟨a', rfl, by simp [hpq], by simp⟩
    | Render => exact ⟨a', rfl, by simp [hpq], by simp⟩
    | FocusGained => exact ⟨a', rfl, by simp [hpq], by simp⟩
    | FocusLost => exact ⟨a', rfl, by simp [hpq], by simp⟩
    | Paste s => exact ⟨a', rfl, by simp [hpq], by simp⟩
    | Mouse mm => exact ⟨a', rfl, by simp [hpq], by simp⟩
    | Resize w hgt => exact ⟨a', rfl, by simp [hpq], by simp⟩

/-- C10: while the issue-table filter box has focus, any character key-press
(`'q'` included) is delegated to the filter input box, which inserts the
character at the cursor and returns `Stop`; consequently the whole
`handle_event` leaves the quit flag unchanged. -/
theorem filter_box_consumes_characters (enc : IssueEvent → String) (orc : AppendOracle)
    (a : App) (ch : Char) (m : KeyModifiers)
    (hp : a.tuistate.page = .IssueTable) (hf : a.tuistate.focus = .IssueTableFilter) :
    ∃ a', App.page_handle enc orc a (.Key ⟨.Char ch, m, .Press⟩) = .ok (.Stop, a')
      ∧ a'.tuistate.issue_table.filter_input.text
          = a.tuistate.issue_table.filter_input.text.take a.tuistate.issue_table.filter_input.cursor
            ++ [ch] ++ a.tuistate.issue_table.filter_input.text.drop a.tuistate.issue_table.filter_input.cursor
      ∧ a'.tuistate.issue_table.filter_input.cursor = a.tuistate.issue_table.filter_input.cursor + 1
      ∧ App.handle_event enc orc a (.Key ⟨.Char ch, m, .Press⟩) = .ok a'
      ∧ a'.should_quit = a.should_quit := by
  obtain ⟨iss, log, ⟨pg, fc, tbl, thr⟩, ed, q⟩ := a
  have hp' : pg = Page.IssueTable := hp
  have hf' : fc = Focus.IssueTableFilter := hf
  subst hp'
  subst hf'
  exact ⟨_, rfl, rfl, rfl, rfl, rfl⟩

/-- Witness for `slash_focuses_filter_esc_returns` at a concrete application
state. -/
theorem slash_focuses_filter_esc_returns_witness :
    let a0 : App :=
      { issues := Issues.empty, event_log := "",
        tuistate :=
          { page := .IssueTable, focus := .IssueTable,
            issue_table :=
              { table_selected := none,
                filter_input := { text := [], cursor := 0, is_focused := false },
                sort_by := .Id, sort_direction := .Ascending, columns := [],
                show_help := false, display_map := [] },
            issue_thread := { list_selected := none, issue_id := 0, show_help := false } },
        external_editor := { entry := none }, should_quit := false }
    let noMods : KeyModifiers := { shift := false, control := false, alt := false }
    ∃ a', App.page_handle (fun _ => "") .allOk a0 (.Key ⟨.Char '/', noMods, .Press⟩)
        = .ok (.Stop, a')
      ∧ a'.tuistate.focus = .IssueTableFilter
      ∧ a'.tuistate.page = .IssueTable
      ∧ ∃ a'', App.page_handle (fun _ => "") .allOk a' (.Key ⟨.Esc, noMods, .Press⟩)
          = .ok (.Stop, a'')
        ∧ a''.tuistate.focus = .IssueTable := by
  intro a0 noMods
  exact slash_focuses_filter_esc_returns (fun _ => "") .allOk a0 noMods noMods rfl rfl

/-- Witness for `quit_flag_only_on_continue`: a `q` key-press on the table
page (table focused) is declined by the page handler and quits. -/
theorem quit_flag_only_on_continue_witness :
    let a0 : App :=
      { issues := Issues.empty, event_log := "",
        tuistate :=
          { page := .IssueTable, focus := .IssueTable,
            issue_table :=
              { table_selected := none,
                filter_input := { text := [], cursor := 0, is_focused := false },
                sort_by := .Id, sort_direction := .Ascending, columns := [],
                show_help := false, display_map := [] },
            issue_thread := { list_selected := none, issue_id := 0, show_help := false } },
        external_editor := { entry := none }, should_quit := false }
    let qPress : Event :=
      .Key ⟨.Char 'q', { shift := false, control := false, alt := false }, .Press⟩
    ∃ a'', App.handle_event (fun _ => "") .allOk a0 qPress = .ok a''
      ∧ (a''.should_quit = true ↔
          (EventPropagation.Continue = .Continue ∧ ∃ k, qPress = .Key k ∧ k.code = .Char 'q'))
      ∧ (EventPropagation.Continue = .Stop → a'' = a0) := by
  intro a0 qPress
  exact quit_flag_only_on_continue (fun _ => "") .allOk a0 qPress .Continue a0 rfl rfl

/-- Witness for `filter_box_consumes_characters`: a `q` key-press while the
filter box is focused is inserted into the filter text and never quits. -/
theorem filter_box_consumes_characters_witness :
    let a1 : App :=
      { issues := Issues.empty, event_log := "",
        tuistate :=
          { page := .IssueTable, focus := .IssueTableFilter,
            issue_table :=
              { table_selected := none,
                filter_input := { text := ['a'], cursor := 1, is_focused := true },
                sort_by := .Id, sort_direction := .Ascending, columns := [],
                show_help := false, display_map := [] },
            issue_thread := { list_selected := none, issue_id := 0, show_help := false } },
        external_editor := { entry := none }, should_quit := false }
    let m0 : KeyModifiers := { shift := false, control := false, alt := false }
    ∃ a', App.page_handle (fun _ => "") .allOk a1 (.Key ⟨.Char 'q', m0, .Press⟩)
        = .ok (.Stop, a')
      ∧ a'.tuistate.issue_table.filter_input.text
          = a1.tuistate.issue_table.filter_input.text.take a1.tuistate.issue_table.filter_input.cursor
            ++ ['q'] ++ a1.tuistate.issue_table.filter_input.text.drop a1.tuistate.issue_table.filter_input.cursor
      ∧ a'.tuistate.issue_table.filter_input.cursor = a1.tuistate.issue_table.filter_input.cursor + 1
      ∧ App.handle_event (fun _ => "") .allOk a1 (.Key ⟨.Char 'q', m0, .Press⟩) = .ok a'
      ∧ a'.should_quit = a1.should_quit := by
  intro a1 m0
  exact filter_box_consumes_characters (fun _ => "") .allOk a1 'q' m0 rfl rfl

/-! ## C9: the external-editor slot -/

/-- C9: `edit` stores the fresh entry in the slot (which holds at most one
entry by construction) and hands back exactly the displaced entry — the
previously stored one when the slot was full, `none` when it was empty —
touching nothing else (in particular no callback is invoked); `take` returns
the current content and leaves the slot empty. -/
theorem editor_slot_spec (ed : ExternalEditor) (d fe : String) (cb : EditorCallback) :
    ((ed.edit d fe cb).2.entry
        = some { data := d, file_extension := fe, callback := cb })
    ∧ (∀ old, ed.entry = some old → (ed.edit d fe cb).1 = some old)
    ∧ (ed.entry = none → (ed.edit d fe cb).1 = none)
    ∧ (ed.take.1 = ed.entry)
    ∧ (ed.take.2.entry = none) := by
  refine ⟨rfl, ?_, ?_, rfl, rfl⟩
  · intro old h
    simp [ExternalEditor.edit, h]
  · intro h
    simp [ExternalEditor.edit, h]

/-- Witness for `editor_slot_spec`: a displaced entry is returned intact and
the slot then holds the new entry; `take` empties a full slot. -/
theorem editor_slot_spec_witness :
    let old : ExternalEditorEntry :=
      { data := "a", file_extension := "", callback := .editColumns }
    let ed : ExternalEditor := { entry := some old }
    ((ed.edit "b" "txt" .newIssue).1 = some old)
    ∧ ((ed.edit "b" "txt" .newIssue).2.entry
        = some { data := "b", file_extension := "txt", callback := .newIssue })
    ∧ (ed.take.2.entry = none) := by
  intro old ed
  have h := editor_slot_spec ed "b" "txt" .newIssue
  exact ⟨h.2.1 old rfl, h.1, h.2.2.2.2⟩

end Intrack
